import Mathlib

/-!
termcolor: style composition and the conditional Printer

A shallow embedding of `termcolor.go`.

* Go strings are Lean `String`s, `+` is `++`.
* A function of the Go source that can panic at run time (an index or a slice
  expression out of range) returns `Option`; `none` is the panic, and a panic
  in a callee is a panic of the caller.
* The `io.Writer` behind a `Printer` is a state machine: `Write` takes the
  state of the sink and the data and returns the new state, the byte count and
  the error, if any.
* `fmt.Sprintf` is a parameter of `Printf`.
-/

namespace Termcolor

/-! ## Data model -/

/-- The Go type `style` (`type style string`): a named string type of its own,
distinct from `string` in a type assertion. `code` is the conversion
`string(s)`. -/
structure style where
  code : String
deriving DecidableEq

/-- The constant `startMarker`, ESC followed by an opening bracket. -/
def startMarker : String := "\x1b["

/-- The constant `endMarker`. -/
def endMarker : String := "m"

/-- The constant `separator`. -/
def separator : Char := ';'

def Reset : style := ⟨"0"⟩
def Bold : style := ⟨"1"⟩
def Default : style := ⟨"22"⟩
def ForegroundBlack : style := ⟨"30"⟩
def ForegroundRed : style := ⟨"31"⟩
def ForegroundGreen : style := ⟨"32"⟩
def ForegroundYellow : style := ⟨"33"⟩
def ForegroundBlue : style := ⟨"34"⟩
def ForegroundMagenta : style := ⟨"35"⟩
def ForegroundCyan : style := ⟨"36"⟩
def ForegroundWhite : style := ⟨"37"⟩
def BackgroundBlack : style := ⟨"40"⟩
def BackgroundRed : style := ⟨"41"⟩
def BackgroundGreen : style := ⟨"42"⟩
def BackgroundYellow : style := ⟨"43"⟩
def BackgroundBlue : style := ⟨"44"⟩
def BackgroundMagenta : style := ⟨"45"⟩
def BackgroundCyan : style := ⟨"46"⟩
def BackgroundWhite : style := ⟨"47"⟩

/-! ## Go slice primitives -/

/-- The index expression `xs[i]`: a run-time panic (`none`) when `i` is not
below `len(xs)`. -/
def index {α : Type} (xs : List α) (i : Nat) : Option α :=
  if i < xs.length then xs.get? i else none

/-- The slice expression `xs[lo:]`: a run-time panic (`none`) when `lo` exceeds
`len(xs)`. -/
def sliceFrom {α : Type} (xs : List α) (lo : Nat) : Option (List α) :=
  if lo ≤ xs.length then some (xs.drop lo) else none

/-! ## StyleComposer -/

/-- One pass of the body of the loop of `join` at index `i`, on the builder
`b`: write the separator, then `string(styles[i+1])`. -/
def joinStep (styles : List style) (b : String) (i : Nat) : Option String := do
  let b := b.push separator
  let s ← index styles (i + 1)
  pure (b ++ s.code)

/-- The function `join`: empty string for no styles, otherwise a builder that
receives `string(styles[0])` and then, for every index `i` of `styles[1:]`, the
separator and `string(styles[i+1])`. -/
def join (styles : List style) : Option String :=
  if styles.length = 0 then
    some ""
  else do
    let b : String := ""
    let s0 ← index styles 0
    let b := b ++ s0.code
    let tail ← sliceFrom styles 1
    (List.range tail.length).foldlM (joinStep styles) b

/-- The function `Activate`. -/
def Activate (styles : List style) : Option String := do
  let j ← join styles
  pure (startMarker ++ j ++ endMarker)

/-- The function `ApplyStyles`. -/
def ApplyStyles (s : String) (styles : List style) : Option String :=
  if styles.length = 0 then
    some s
  else do
    let a ← Activate styles
    let r ← Activate [Reset]
    pure (a ++ s ++ r)

/-! ## Printer -/

/-- An `io.Writer`: `Write` takes the state of the sink and the data and
returns the state of the sink after the call, the number of bytes written and
the error, if any. -/
structure Writer (σ ε : Type) where
  Write : σ → String → σ × Nat × Option ε

/-- The Go type `Printer`: the writer `w` and the flag `isTTY`. The state of
the sink behind `w` is passed to every operation that writes. -/
structure Printer (σ ε : Type) where
  w : Writer σ ε
  isTTY : Bool

/-- The function `New`. -/
def New {σ ε : Type} (w : Writer σ ε) (tty : Bool) : Printer σ ε :=
  { w := w, isTTY := tty }

/-- The call `fmt.Fprint(w, a)` with a single string operand: the operand is
handed to `w.Write` in one call, whose results are returned. -/
def Fprint {σ ε : Type} (w : Writer σ ε) (st : σ) (a : String) : σ × Nat × Option ε :=
  w.Write st a

/-- The method `Printer.Print`: the state of the sink after the call and the
error returned; the byte count of `fmt.Fprint` is dropped. -/
def Print {σ ε : Type} (p : Printer σ ε) (st : σ) (msg : String) (styles : List style) :
    Option (σ × Option ε) :=
  if !p.isTTY then
    let r := Fprint p.w st msg
    some (r.1, r.2.2)
  else do
    let styled ← ApplyStyles msg styles
    let r := Fprint p.w st styled
    pure (r.1, r.2.2)

/-- The method `Printer.Println`. -/
def Println {σ ε : Type} (p : Printer σ ε) (st : σ) (msg : String) (styles : List style) :
    Option (σ × Option ε) :=
  Print p st (msg ++ "\n") styles

/-- The method `Printer.Styled`. -/
def Styled {σ ε : Type} (p : Printer σ ε) (s : String) (styles : List style) : Option String :=
  if !p.isTTY then
    some s
  else
    ApplyStyles s styles

/-- A value of type `interface{}` as the type assertion `a.(style)` of `Printf`
sees it: of dynamic type `style`, or of any other dynamic type `V`. -/
inductive Arg (V : Type) where
  | ofStyle (s : style)
  | other (v : V)
deriving DecidableEq

/-- One pass of the body of the loop of `Printf` on the pair `(args, styles)`:
a value of type `style` is appended to `styles`, any other to `args`. -/
def splitStep {V : Type} (acc : List (Arg V) × List style) (a : Arg V) :
    List (Arg V) × List style :=
  match a with
  | Arg.ofStyle s => (acc.1, acc.2 ++ [s])
  | _ => (acc.1 ++ [a], acc.2)

/-- The loop of `Printf` over `argsAndStyles`, from empty `args` and `styles`. -/
def splitArgs {V : Type} (argsAndStyles : List (Arg V)) : List (Arg V) × List style :=
  argsAndStyles.foldl splitStep ([], [])

/-- The method `Printer.Printf`; `Sprintf` stands for `fmt.Sprintf`. -/
def Printf {σ ε V : Type} (Sprintf : String → List (Arg V) → String) (p : Printer σ ε) (st : σ)
    (format : String) (argsAndStyles : List (Arg V)) : Option (σ × Option ε) :=
  let split := splitArgs argsAndStyles
  let args := split.1
  let styles := split.2
  Print p st (Sprintf format args) styles

/-- The sink of the tests, a `strings.Builder`: `Write` appends the data to the
contents and reports its length in bytes and no error. -/
def stringsBuilder : Writer String String :=
  { Write := fun st data => (st ++ data, data.utf8ByteSize, none) }

/-! ## Reference functions, following the specification -/

/-- The specification of `join`: the codes of the tokens with the separator
between consecutive codes. -/
def joinSpec (tokens : List style) : String :=
  String.intercalate ";" (tokens.map style.code)

/-- Whether an argument is of type `style`. -/
def Arg.isStyle {V : Type} : Arg V → Bool
  | Arg.ofStyle _ => true
  | Arg.other _ => false

/-- The specification of the values of an argument list: the subsequence of the
arguments that are not of type `style`. -/
def valuesOf {V : Type} (argsAndStyles : List (Arg V)) : List (Arg V) :=
  argsAndStyles.filter (fun a => !a.isStyle)

/-- The specification of the styles of an argument list: the subsequence of the
arguments that are of type `style`. -/
def stylesOf {V : Type} (argsAndStyles : List (Arg V)) : List style :=
  argsAndStyles.filterMap (fun a => match a with
    | Arg.ofStyle s => some s
    | Arg.other _ => none)

/-- A formatter for the examples, in the place of `fmt.Sprintf`: the format
followed by every argument it receives, each after a bar. -/
def showArgs (format : String) (args : List (Arg String)) : String :=
  args.foldl (fun acc a => match a with
    | Arg.ofStyle s => acc ++ "|style " ++ s.code
    | Arg.other v => acc ++ "|" ++ v) format

/-! ## Handles -/

/-- The constant `os.ModeCharDevice` of the Go library: `1 << (32 - 1 - 10)`,
bit 21 of a file mode. -/
def ModeCharDevice : Nat := 2 ^ 21

/-- An `os.FileInfo` as `isTerminal` uses it: what its method `Mode()`
returns. -/
structure FileInfo where
  Mode : Nat
deriving DecidableEq

/-- An `*os.File` as `NewFromFile` uses it: `Stat` is what the call `f.Stat()`
returns, the file info (`none` is the nil interface value) and the error
(`none` is nil); `writer` is the file as an `io.Writer`. -/
structure File (σ ε : Type) where
  Stat : Option FileInfo × Option ε
  writer : Writer σ ε

/-- The function `isTerminal`: the error of `f.Stat()` is dropped and `Mode()`
is called on the file info, which is a run-time panic (`none`) on the nil
interface value. -/
def isTerminal {σ ε : Type} (f : File σ ε) : Option Bool := do
  let fileInfo := f.Stat.1
  let mode ← fileInfo.map FileInfo.Mode
  if mode &&& ModeCharDevice ≠ 0 then
    pure true
  else
    pure false

/-- The function `NewFromFile`. -/
def NewFromFile {σ ε : Type} (f : File σ ε) : Option (Printer σ ε) := do
  let tty ← isTerminal f
  pure (New f.writer tty)

/-- A handle whose `Stat` fails, as a closed file does: no file info and an
error. Writing to it fails too. -/
def closedFile : File Unit String :=
  { Stat := (none, some "file already closed"),
    writer := { Write := fun st _ => (st, 0, some "file already closed") } }

/-- A handle of a character device: `Stat` succeeds with the bit
`ModeCharDevice` set in the mode. -/
def ttyFile : File String String :=
  { Stat := (some { Mode := ModeCharDevice + 0x190 }, none),
    writer := stringsBuilder }

/-! ## Sinks for observing writes -/

/-- A writer that records, next to the state of the writer `w` it wraps, the
data of every call of `Write` in the order of the calls. -/
def logged {σ ε : Type} (w : Writer σ ε) : Writer (σ × List String) ε :=
  { Write := fun st data =>
      let r := w.Write st.1 data
      ((r.1, st.2 ++ [data]), r.2.1, r.2.2) }

/-- A writer every call of which fails with the error `err` and writes
nothing. -/
def failing (err : String) : Writer Unit String :=
  { Write := fun st _ => (st, 0, some err) }

/-! ## Sequences of operations on a Printer -/

/-- One call of a method of a Printer, with its arguments. -/
inductive Call (V : Type) where
  | print (msg : String) (styles : List style)
  | println (msg : String) (styles : List style)
  | printf (format : String) (argsAndStyles : List (Arg V))
  | styled (s : String) (styles : List style)

/-- The effect of one call on the Printer `p` and the sink: the Printer after
the call (no method assigns to a field of its receiver), the state of the sink
after the call, and the error returned (`Styled` returns no error and leaves
the sink alone). -/
def Call.exec {σ ε V : Type} (Sprintf : String → List (Arg V) → String) (p : Printer σ ε)
    (st : σ) : Call V → Option (Printer σ ε × σ × Option ε)
  | Call.print msg styles => (Print p st msg styles).map (fun r => (p, r.1, r.2))
  | Call.println msg styles => (Println p st msg styles).map (fun r => (p, r.1, r.2))
  | Call.printf format argsAndStyles =>
    (Printf Sprintf p st format argsAndStyles).map (fun r => (p, r.1, r.2))
  | Call.styled s styles => (Styled p s styles).map (fun _ => (p, st, none))

/-- A sequence of calls, one after the other, the errors returned being
dropped as the tests drop them: the Printer and the sink at the end. -/
def runCalls {σ ε V : Type} (Sprintf : String → List (Arg V) → String) :
    Printer σ ε → σ → List (Call V) → Option (Printer σ ε × σ)
  | p, st, [] => some (p, st)
  | p, st, c :: cs => do
    let r ← c.exec Sprintf p st
    runCalls Sprintf r.1 r.2.1 cs

/-- The specification of the plain text of a call: the message for `Print`, the
message and a newline for `Println`, the format applied to the arguments that
are not styles for `Printf`, nothing for `Styled`. -/
def plainText {V : Type} (Sprintf : String → List (Arg V) → String) : Call V → String
  | Call.print msg _ => msg
  | Call.println msg _ => msg ++ "\n"
  | Call.printf format argsAndStyles => Sprintf format (valuesOf argsAndStyles)
  | Call.styled _ _ => ""

/-- The specification of the plain text of a sequence of calls: the plain texts
of the calls, concatenated in the order of the calls. -/
def plainTexts {V : Type} (Sprintf : String → List (Arg V) → String) :
    List (Call V) → String
  | [] => ""
  | c :: cs => plainText Sprintf c ++ plainTexts Sprintf cs

/-! ## The methods with their receiver as state -/

/-- The method `Printer.Print`, with the object its receiver `p` points to as
part of the state: the Printer at the return, the state of the sink after the
call, and the error returned. The body reads `p.isTTY` and `p.w` and assigns
to no field. -/
def Printer.Print {σ ε : Type} (p : Printer σ ε) (st : σ) (msg : String)
    (styles : List style) : Option (Printer σ ε × σ × Option ε) :=
  if !p.isTTY then
    let r := Fprint p.w st msg
    some (p, r.1, r.2.2)
  else do
    let styled ← ApplyStyles msg styles
    let r := Fprint p.w st styled
    pure (p, r.1, r.2.2)

/-- The method `Printer.Println`, with the receiver as part of the state. -/
def Printer.Println {σ ε : Type} (p : Printer σ ε) (st : σ) (msg : String)
    (styles : List style) : Option (Printer σ ε × σ × Option ε) :=
  Printer.Print p st (msg ++ "\n") styles

/-- The method `Printer.Printf`, with the receiver as part of the state. -/
def Printer.Printf {σ ε V : Type} (Sprintf : String → List (Arg V) → String) (p : Printer σ ε)
    (st : σ) (format : String) (argsAndStyles : List (Arg V)) :
    Option (Printer σ ε × σ × Option ε) :=
  let split := splitArgs argsAndStyles
  let args := split.1
  let styles := split.2
  Printer.Print p st (Sprintf format args) styles

/-- The method `Printer.Styled`, with the receiver and the sink as part of the
state: the Printer at the return, the state of the sink, which the body never
touches, and the string returned. -/
def Printer.Styled {σ ε : Type} (p : Printer σ ε) (st : σ) (s : String)
    (styles : List style) : Option (Printer σ ε × σ × String) :=
  if !p.isTTY then
    some (p, st, s)
  else do
    let out ← ApplyStyles s styles
    pure (p, st, out)

/-- One call on the state made of the Printer and the sink: the Printer and the
sink that the method called leaves, its result being dropped. -/
def Call.step {σ ε V : Type} (Sprintf : String → List (Arg V) → String) (p : Printer σ ε)
    (st : σ) : Call V → Option (Printer σ ε × σ)
  | Call.print msg styles => (Printer.Print p st msg styles).map (fun r => (r.1, r.2.1))
  | Call.println msg styles => (Printer.Println p st msg styles).map (fun r => (r.1, r.2.1))
  | Call.printf format argsAndStyles =>
    (Printer.Printf Sprintf p st format argsAndStyles).map (fun r => (r.1, r.2.1))
  | Call.styled s styles => (Printer.Styled p st s styles).map (fun r => (r.1, r.2.1))

/-- A sequence of calls on the state made of the Printer and the sink, each
call starting from the Printer and the sink the call before it left. -/
def runSteps {σ ε V : Type} (Sprintf : String → List (Arg V) → String) :
    Printer σ ε → σ → List (Call V) → Option (Printer σ ε × σ)
  | p, st, [] => some (p, st)
  | p, st, c :: cs => do
    let r ← Call.step Sprintf p st c
    runSteps Sprintf r.1 r.2 cs

/-! ## The built-in vocabulary -/

/-- The foreground colours, black to white. -/
def foregrounds : List style :=
  [ForegroundBlack, ForegroundRed, ForegroundGreen, ForegroundYellow, ForegroundBlue,
    ForegroundMagenta, ForegroundCyan, ForegroundWhite]

/-- The background colours, black to white. -/
def backgrounds : List style :=
  [BackgroundBlack, BackgroundRed, BackgroundGreen, BackgroundYellow, BackgroundBlue,
    BackgroundMagenta, BackgroundCyan, BackgroundWhite]

/-- The built-in style tokens, all nineteen of them. -/
def builtins : List style :=
  [Reset, Bold, Default] ++ foregrounds ++ backgrounds

/-- The number a string of decimal digits stands for. -/
def decimal (s : String) : Nat :=
  s.data.foldl (fun n c => 10 * n + (c.toNat - 48)) 0

/-- Whether a string is a non-empty string of decimal digits. -/
def isDigits (s : String) : Bool :=
  !s.data.isEmpty && s.data.all Char.isDigit

/-- Whether a string of characters begins and ends with a decimal digit,
holds the separator `n` times and never twice in a row. -/
def separated (l : List Char) (n : Nat) : Prop :=
  (∃ c, l.head? = some c ∧ c.isDigit = true) ∧
  (∃ c, l.getLast? = some c ∧ c.isDigit = true) ∧
  l.count separator = n ∧
  l.Chain' (fun x y => ¬(x = separator ∧ y = separator))

/-! ## The loop of `join` -/

/-- What one pass of the loop of `join` does to the builder for the token `s`. -/
def pushCode (b : String) (s : style) : String :=
  b.push separator ++ s.code

theorem index_cons_succ {α : Type} (x : α) (xs : List α) (i : Nat) (h : i < xs.length) :
    index (x :: xs) (i + 1) = some (xs.get ⟨i, h⟩) := by
  unfold index
  simp [h, List.get?_eq_get h]

theorem joinStep_cons (s0 : style) (tl : List style) (b : String) (i : Nat)
    (h : i < tl.length) :
    joinStep (s0 :: tl) b i = some (pushCode b (tl.get ⟨i, h⟩)) := by
  unfold joinStep
  rw [index_cons_succ s0 tl i h]
  rfl

theorem joinLoop_take (s0 : style) (tl : List style) (b : String) :
    ∀ k, k ≤ tl.length →
      (List.range k).foldlM (joinStep (s0 :: tl)) b = some ((tl.take k).foldl pushCode b) := by
  intro k
  induction k with
  | zero => intro _; rfl
  | succ k ih =>
    intro hk
    have hlt : k < tl.length := hk
    rw [List.range_succ, List.foldlM_append, ih (Nat.le_of_lt hlt)]
    have htake : tl.take (k + 1) = tl.take k ++ [tl.get ⟨k, hlt⟩] := by
      rw [List.take_succ, List.getElem?_eq_getElem hlt]
      rfl
    rw [htake, List.foldl_append]
    show (joinStep (s0 :: tl) ((tl.take k).foldl pushCode b) k).bind some = _
    rw [joinStep_cons s0 tl _ k hlt]
    rfl

theorem join_cons (s0 : style) (tl : List style) :
    join (s0 :: tl) = some (tl.foldl pushCode s0.code) := by
  unfold join
  have h := joinLoop_take s0 tl ("" ++ s0.code) tl.length (Nat.le_refl _)
  simp at h
  simp [index, sliceFrom, h]

theorem pushCode_eq (b : String) (s : style) : pushCode b s = b ++ ";" ++ s.code := by
  apply String.ext
  simp [pushCode, separator, String.data_append]

theorem foldl_pushCode_append (p : String) (l : List style) :
    ∀ b : String, l.foldl pushCode (p ++ b) = p ++ l.foldl pushCode b := by
  induction l with
  | nil => intro b; rfl
  | cons s l ih =>
    intro b
    simp only [List.foldl_cons]
    rw [pushCode_eq, pushCode_eq, String.append_assoc, String.append_assoc, ih,
      String.append_assoc]

theorem intercalate_go_codes (l : List style) :
    ∀ acc : String, String.intercalate.go acc ";" (l.map style.code) = l.foldl pushCode acc := by
  induction l with
  | nil => intro acc; rfl
  | cons s l ih =>
    intro acc
    simp only [List.map_cons, List.foldl_cons, String.intercalate.go]
    rw [ih, pushCode_eq]

theorem join_eq_joinSpec (tokens : List style) : join tokens = some (joinSpec tokens) := by
  cases tokens with
  | nil => rfl
  | cons s0 tl =>
    rw [join_cons]
    simp only [joinSpec, List.map_cons, String.intercalate]
    rw [intercalate_go_codes]

theorem join_cons_cons (t1 t2 : style) (rest : List style) :
    join (t1 :: t2 :: rest) = some (t1.code ++ ";" ++ rest.foldl pushCode t2.code) := by
  rw [join_cons]
  simp only [List.foldl_cons]
  rw [pushCode_eq, foldl_pushCode_append]

theorem Activate_eq (tokens : List style) :
    Activate tokens = some (startMarker ++ joinSpec tokens ++ endMarker) := by
  simp [Activate, join_eq_joinSpec]

theorem ApplyStyles_cons (msg : String) (t : style) (rest : List style) :
    ApplyStyles msg (t :: rest) =
      some (startMarker ++ joinSpec (t :: rest) ++ endMarker ++ msg ++ "\x1b[0m") := by
  have hr : Activate [Reset] = some "\x1b[0m" := by decide
  simp [ApplyStyles, Activate_eq (t :: rest), hr]

theorem ApplyStyles_total (msg : String) (styles : List style) :
    ∃ out : String, ApplyStyles msg styles = some out := by
  cases styles with
  | nil => exact ⟨msg, rfl⟩
  | cons t rest => exact ⟨_, ApplyStyles_cons msg t rest⟩

theorem Print_tty {σ ε : Type} (w : Writer σ ε) (st : σ) (msg out : String)
    (styles : List style) (h : ApplyStyles msg styles = some out) :
    Print (New w true) st msg styles = some ((w.Write st out).1, (w.Write st out).2.2) := by
  simp [Print, New, Fprint, h]

theorem splitArgs_foldl {V : Type} (l : List (Arg V)) :
    ∀ acc : List (Arg V) × List style,
      l.foldl splitStep acc = (acc.1 ++ valuesOf l, acc.2 ++ stylesOf l) := by
  induction l with
  | nil => intro acc; simp [valuesOf, stylesOf]
  | cons a l ih =>
    intro acc
    rw [List.foldl_cons, ih]
    cases a with
    | ofStyle s => simp [splitStep, valuesOf, stylesOf, Arg.isStyle]
    | other v => simp [splitStep, valuesOf, stylesOf, Arg.isStyle]

theorem splitArgs_eq {V : Type} (l : List (Arg V)) : splitArgs l = (valuesOf l, stylesOf l) := by
  simp [splitArgs, splitArgs_foldl]

theorem Printf_eq {σ ε V : Type} (Sprintf : String → List (Arg V) → String) (p : Printer σ ε)
    (st : σ) (format : String) (l : List (Arg V)) :
    Printf Sprintf p st format l = Print p st (Sprintf format (valuesOf l)) (stylesOf l) := by
  simp [Printf, splitArgs_eq]

theorem length_valuesOf_add {V : Type} (l : List (Arg V)) :
    (valuesOf l).length + (stylesOf l).length = l.length := by
  induction l with
  | nil => rfl
  | cons a l ih =>
    cases a with
    | ofStyle s =>
      simp only [valuesOf, stylesOf, Arg.isStyle, List.filter_cons, List.filterMap_cons,
        List.length_cons] at ih ⊢
      simp
      omega
    | other v =>
      simp only [valuesOf, stylesOf, Arg.isStyle, List.filter_cons, List.filterMap_cons,
        List.length_cons] at ih ⊢
      simp
      omega

theorem stylesOf_map_ofStyle {V : Type} (l : List (Arg V)) :
    (stylesOf l).map Arg.ofStyle = l.filter (fun a => a.isStyle) := by
  induction l with
  | nil => rfl
  | cons a l ih =>
    cases a with
    | ofStyle s =>
      simp only [stylesOf, Arg.isStyle, List.filter_cons, List.filterMap_cons] at ih ⊢
      simp [ih]
    | other v =>
      simp only [stylesOf, Arg.isStyle, List.filter_cons, List.filterMap_cons] at ih ⊢
      simp [ih]

/-! ## Claims -/

/-- C1: `join` returns the codes of the tokens in the given order with exactly
one `;` between consecutive codes: no tokens give the empty string, one token
gives its code, a first token followed by a non-empty rest gives the code of the
first, `;` and the join of the rest; so `join` is the intercalation of `;` into
the list of codes, and it never panics. -/
theorem join_spec :
    join [] = some "" ∧
    (∀ t : style, join [t] = some t.code) ∧
    (∀ (t1 t2 : style) (rest : List style), ∃ j : String,
      join (t2 :: rest) = some j ∧ join (t1 :: t2 :: rest) = some (t1.code ++ ";" ++ j)) ∧
    (∀ tokens : List style,
      join tokens = some (String.intercalate ";" (tokens.map style.code))) := by
  refine ⟨rfl, ?_, ?_, ?_⟩
  · intro t
    rw [join_cons]
    rfl
  · intro t1 t2 rest
    exact ⟨rest.foldl pushCode t2.code, join_cons t2 rest, join_cons_cons t1 t2 rest⟩
  · intro tokens
    exact join_eq_joinSpec tokens

/-- C2: `Activate` returns the start marker, ESC and `[` (code points 0x1B and
0x5B), then the join of the tokens, then the end marker `m`; with no tokens it
returns exactly ESC `[` `m`. -/
theorem Activate_spec :
    (∀ tokens : List style, ∃ j : String,
      join tokens = some j ∧ Activate tokens = some ("\x1b[" ++ j ++ "m")) ∧
    Activate [] = some "\x1b[m" ∧
    startMarker.data.map Char.toNat = [0x1B, 0x5B] ∧
    endMarker = "m" := by
  refine ⟨?_, rfl, by decide, rfl⟩
  intro tokens
  refine ⟨joinSpec tokens, join_eq_joinSpec tokens, ?_⟩
  simp [Activate, join_eq_joinSpec, startMarker, endMarker]

/-- C3: for a non-empty list of tokens, `ApplyStyles` returns the activation of
the tokens, then the message, then the activation of `Reset` alone, which is
ESC `[0m`; so the result ends with ESC `[0m` and contains the message as it
is. -/
theorem ApplyStyles_nonempty (msg : String) (tokens : List style) (h : tokens ≠ []) :
    ∃ a res : String,
      Activate tokens = some a ∧
      Activate [Reset] = some "\x1b[0m" ∧
      ApplyStyles msg tokens = some res ∧
      res = a ++ msg ++ "\x1b[0m" ∧
      "\x1b[0m".data <:+ res.data ∧
      msg.data <:+: res.data := by
  cases tokens with
  | nil => exact absurd rfl h
  | cons t rest =>
    refine ⟨startMarker ++ joinSpec (t :: rest) ++ endMarker, _, Activate_eq _, by decide,
      ApplyStyles_cons msg t rest, rfl, ?_, ?_⟩
    · exact ⟨_, (String.data_append _ _).symm⟩
    · refine ⟨(startMarker ++ joinSpec (t :: rest) ++ endMarker).data, "\x1b[0m".data, ?_⟩
      simp [String.data_append]

/-- Witness of C3: the tokens `Reset` and `Default` themselves, around the
message `foo`. -/
theorem ApplyStyles_nonempty_witness :
    [Reset, Default] ≠ [] ∧
    ∃ a res : String,
      Activate [Reset, Default] = some a ∧
      Activate [Reset] = some "\x1b[0m" ∧
      ApplyStyles "foo" [Reset, Default] = some res ∧
      res = a ++ "foo" ++ "\x1b[0m" ∧
      "\x1b[0m".data <:+ res.data ∧
      "foo".data <:+: res.data :=
  ⟨by decide, ApplyStyles_nonempty "foo" [Reset, Default] (by decide)⟩

/-- C4: with an empty style list `ApplyStyles` returns the message itself, which
differs from the activation of no tokens followed by the message and the
activation of `Reset`. -/
theorem ApplyStyles_empty (msg : String) :
    ApplyStyles msg [] = some msg ∧
    ∃ a r : String, Activate [] = some a ∧ Activate [Reset] = some r ∧
      ApplyStyles msg [] ≠ some (a ++ msg ++ r) := by
  refine ⟨rfl, "\x1b[m", "\x1b[0m", by decide, by decide, ?_⟩
  intro h
  have hlen := congrArg (fun o : Option String => o.map String.length) h
  have h3 : "\x1b[m".length = 3 := by decide
  have h4 : "\x1b[0m".length = 4 := by decide
  simp [ApplyStyles, String.length_append, h3, h4] at hlen
  omega

/-- C5: a Printer made with the flag off writes the message itself, in one call
of the sink, whatever the styles: on any sink the outcome of `Print` is that of
`Write` on the message, and on a string builder the contents grow by exactly
the message. -/
theorem Print_plain {σ ε : Type} (w : Writer σ ε) (st : σ) (msg : String)
    (styles : List style) (contents : String) :
    Print (New w false) st msg styles = some ((w.Write st msg).1, (w.Write st msg).2.2) ∧
    Print (New stringsBuilder false) contents msg styles = some (contents ++ msg, none) := by
  exact ⟨rfl, rfl⟩

/-- C6: a Printer made with the flag on writes `ApplyStyles` of the message and
the styles, in one call of the sink; the message itself when there are no
styles, and ESC `[1mhello, ` ESC `[0m` for `hello, ` in `Bold`. -/
theorem Print_styled {σ ε : Type} (w : Writer σ ε) (st : σ) (msg : String)
    (styles : List style) :
    (∃ out : String, ApplyStyles msg styles = some out ∧
      Print (New w true) st msg styles = some ((w.Write st out).1, (w.Write st out).2.2)) ∧
    Print (New w true) st msg [] = some ((w.Write st msg).1, (w.Write st msg).2.2) ∧
    Print (New w true) st "hello, " [Bold] =
      some ((w.Write st "\x1b[1mhello, \x1b[0m").1, (w.Write st "\x1b[1mhello, \x1b[0m").2.2) ∧
    Print (New stringsBuilder true) "" "hello, " [Bold] =
      some ("\x1b[1mhello, \x1b[0m", none) := by
  refine ⟨?_, ?_, ?_, ?_⟩
  · obtain ⟨out, hout⟩ := ApplyStyles_total msg styles
    exact ⟨out, hout, Print_tty w st msg out styles hout⟩
  · exact Print_tty w st msg msg [] rfl
  · exact Print_tty w st _ _ [Bold] (by decide)
  · exact Print_tty stringsBuilder "" _ _ [Bold] (by decide)

/-- C7: `Println` has the outcome of `Print` on the message followed by a
newline, sink and error alike; so, with the flag on and a non-empty style list,
the string written ends with the newline followed by ESC `[0m`. -/
theorem Println_spec {σ ε : Type} (p : Printer σ ε) (st : σ) (msg : String)
    (styles : List style) :
    Println p st msg styles = Print p st (msg ++ "\n") styles ∧
    (p.isTTY = true → styles ≠ [] →
      ∃ out : String, ApplyStyles (msg ++ "\n") styles = some out ∧
        Println p st msg styles = some ((p.w.Write st out).1, (p.w.Write st out).2.2) ∧
        ∃ a : String, Activate styles = some a ∧ out = a ++ msg ++ ("\n" ++ "\x1b[0m") ∧
          ("\n" ++ "\x1b[0m").data <:+ out.data) := by
  refine ⟨rfl, ?_⟩
  intro htty hne
  cases styles with
  | nil => exact absurd rfl hne
  | cons t rest =>
    have hout := ApplyStyles_cons (msg ++ "\n") t rest
    refine ⟨_, hout, ?_, startMarker ++ joinSpec (t :: rest) ++ endMarker, Activate_eq _, ?_, ?_⟩
    · cases p with
      | mk w tty =>
        simp only at htty
        subst htty
        exact Print_tty w st _ _ _ hout
    · simp [String.append_assoc]
    · refine ⟨(startMarker ++ joinSpec (t :: rest) ++ endMarker ++ msg).data, ?_⟩
      simp [String.data_append]

/-- Witness of C7: `world!` in `ForegroundBlack` on a string builder with the
flag on. -/
theorem Println_spec_witness :
    (New stringsBuilder true).isTTY = true ∧ [ForegroundBlack] ≠ [] ∧
    ∃ out : String, ApplyStyles ("world!" ++ "\n") [ForegroundBlack] = some out ∧
      Println (New stringsBuilder true) "" "world!" [ForegroundBlack] =
        some (((New stringsBuilder true).w.Write "" out).1,
          ((New stringsBuilder true).w.Write "" out).2.2) ∧
      ∃ a : String, Activate [ForegroundBlack] = some a ∧
        out = a ++ "world!" ++ ("\n" ++ "\x1b[0m") ∧
        ("\n" ++ "\x1b[0m").data <:+ out.data :=
  ⟨rfl, by decide,
    (Println_spec (New stringsBuilder true) "" "world!" [ForegroundBlack]).2 rfl (by decide)⟩

/-- C8: `Printf` has the outcome of `Print` on the format applied to the values
and on the styles, where the loop collects as values the arguments that are not
of type `style` and as styles those that are, each in the order of the argument
list: the two lengths add up to the length of the argument list, no value
handed to the formatter is of type `style`, and both are subsequences of the
argument list. -/
theorem Printf_partition {σ ε V : Type} (Sprintf : String → List (Arg V) → String)
    (p : Printer σ ε) (st : σ) (format : String) (argsAndStyles : List (Arg V)) :
    Printf Sprintf p st format argsAndStyles =
      Print p st (Sprintf format (valuesOf argsAndStyles)) (stylesOf argsAndStyles) ∧
    splitArgs argsAndStyles = (valuesOf argsAndStyles, stylesOf argsAndStyles) ∧
    (valuesOf argsAndStyles).length + (stylesOf argsAndStyles).length = argsAndStyles.length ∧
    (∀ a ∈ (splitArgs argsAndStyles).1, a.isStyle = false) ∧
    ((splitArgs argsAndStyles).1).Sublist argsAndStyles ∧
    (((splitArgs argsAndStyles).2).map Arg.ofStyle).Sublist argsAndStyles := by
  refine ⟨Printf_eq Sprintf p st format argsAndStyles, splitArgs_eq argsAndStyles,
    length_valuesOf_add argsAndStyles, ?_, ?_, ?_⟩
  · intro a ha
    rw [splitArgs_eq] at ha
    simpa [valuesOf] using (List.mem_filter.mp ha).2
  · rw [splitArgs_eq]
    exact List.filter_sublist argsAndStyles
  · rw [splitArgs_eq]
    show ((stylesOf argsAndStyles).map Arg.ofStyle).Sublist argsAndStyles
    rw [stylesOf_map_ofStyle]
    exact List.filter_sublist argsAndStyles

/-- C9: where the style tokens stand among the arguments of `Printf` does not
matter: two argument lists with the same values in the same order and the same
styles in the same order give the same outcome; with the format `%s and %s`,
`Bold` between, before or after the values `v1`, `v2` gives `Print` of the
format applied to `v1`, `v2` in `Bold`. -/
theorem Printf_position_irrelevant {σ ε V : Type} (Sprintf : String → List (Arg V) → String)
    (p : Printer σ ε) (st : σ) (format : String) :
    (∀ l1 l2 : List (Arg V), valuesOf l1 = valuesOf l2 → stylesOf l1 = stylesOf l2 →
      Printf Sprintf p st format l1 = Printf Sprintf p st format l2) ∧
    (∀ v1 v2 : V,
      Printf Sprintf p st "%s and %s" [Arg.other v1, Arg.ofStyle Bold, Arg.other v2] =
        Print p st (Sprintf "%s and %s" [Arg.other v1, Arg.other v2]) [Bold] ∧
      Printf Sprintf p st "%s and %s" [Arg.ofStyle Bold, Arg.other v1, Arg.other v2] =
        Print p st (Sprintf "%s and %s" [Arg.other v1, Arg.other v2]) [Bold] ∧
      Printf Sprintf p st "%s and %s" [Arg.other v1, Arg.other v2, Arg.ofStyle Bold] =
        Print p st (Sprintf "%s and %s" [Arg.other v1, Arg.other v2]) [Bold]) := by
  constructor
  · intro l1 l2 hv hs
    rw [Printf_eq, Printf_eq, hv, hs]
  · intro v1 v2
    exact ⟨rfl, rfl, rfl⟩

/-- Witness of C9: `Bold` between and before the values `a`, `b`, on a string
builder with the flag on. -/
theorem Printf_position_irrelevant_witness :
    valuesOf [Arg.other "a", Arg.ofStyle Bold, Arg.other "b"] =
      valuesOf [Arg.ofStyle Bold, Arg.other "a", Arg.other "b"] ∧
    stylesOf [Arg.other "a", Arg.ofStyle Bold, Arg.other "b"] =
      stylesOf [Arg.ofStyle Bold, Arg.other "a", Arg.other "b"] ∧
    Printf showArgs (New stringsBuilder true) "" "%s and %s"
        [Arg.other "a", Arg.ofStyle Bold, Arg.other "b"] =
      Printf showArgs (New stringsBuilder true) "" "%s and %s"
        [Arg.ofStyle Bold, Arg.other "a", Arg.other "b"] :=
  ⟨rfl, rfl,
    (Printf_position_irrelevant showArgs (New stringsBuilder true) "" "%s and %s").1
      [Arg.other "a", Arg.ofStyle Bold, Arg.other "b"]
      [Arg.ofStyle Bold, Arg.other "a", Arg.other "b"] rfl rfl⟩

/-- C10: `Styled` returns the text itself when the flag of the Printer is off
and `ApplyStyles` of the text and the styles when it is on; it always returns a
string, and the string depends on the flag alone, not on the sink. -/
theorem Styled_spec {σ ε : Type} (w : Writer σ ε) (text : String) (styles : List style) :
    Styled (New w false) text styles = some text ∧
    Styled (New w true) text styles = ApplyStyles text styles ∧
    (∀ p : Printer σ ε, ∃ out : String, Styled p text styles = some out) ∧
    (∀ (σ2 ε2 : Type) (w2 : Writer σ2 ε2) (tty : Bool),
      Styled (New w2 tty) text styles = Styled (New w tty) text styles) := by
  refine ⟨rfl, rfl, ?_, ?_⟩
  · intro p
    cases p with
    | mk w1 tty =>
      cases tty with
      | false => exact ⟨text, rfl⟩
      | true => exact ApplyStyles_total text styles
  · intro σ2 ε2 w2 tty
    rfl

theorem Print_logged {σ ε : Type} (w : Writer σ ε) (tty : Bool) (st : σ) (log : List String)
    (msg : String) (styles : List style) :
    ∃ out : String, (if tty then ApplyStyles msg styles else some msg) = some out ∧
      Print (New (logged w) tty) (st, log) msg styles =
        some (((w.Write st out).1, log ++ [out]), (w.Write st out).2.2) := by
  cases tty with
  | false => exact ⟨msg, rfl, rfl⟩
  | true =>
    obtain ⟨out, hout⟩ := ApplyStyles_total msg styles
    refine ⟨out, by simpa using hout, ?_⟩
    rw [Print_tty (logged w) (st, log) msg out styles hout]
    rfl

/-- C11: on a sink that records the calls of `Write`, every call of `Print`,
`Println` and `Printf` adds exactly one entry to the record, the complete
output string (styled when the flag is on, plain when it is off), and returns
the error of that one call of `Write` as it is, none when the call returns
none; a failing sink is written to once and its error comes back. -/
theorem write_once {σ ε V : Type} (Sprintf : String → List (Arg V) → String) (w : Writer σ ε)
    (tty : Bool) (st : σ) (log : List String) (msg format : String) (styles : List style)
    (argsAndStyles : List (Arg V)) :
    (∃ out : String, (if tty then ApplyStyles msg styles else some msg) = some out ∧
      Print (New (logged w) tty) (st, log) msg styles =
        some (((w.Write st out).1, log ++ [out]), (w.Write st out).2.2)) ∧
    (∃ out : String,
      (if tty then ApplyStyles (msg ++ "\n") styles else some (msg ++ "\n")) = some out ∧
      Println (New (logged w) tty) (st, log) msg styles =
        some (((w.Write st out).1, log ++ [out]), (w.Write st out).2.2)) ∧
    (∃ out : String,
      (if tty then ApplyStyles (Sprintf format (valuesOf argsAndStyles)) (stylesOf argsAndStyles)
        else some (Sprintf format (valuesOf argsAndStyles))) = some out ∧
      Printf Sprintf (New (logged w) tty) (st, log) format argsAndStyles =
        some (((w.Write st out).1, log ++ [out]), (w.Write st out).2.2)) ∧
    Print (New (logged (failing "EPIPE")) true) ((), []) "hello, " [Bold] =
      some (((), ["\x1b[1mhello, \x1b[0m"]), some "EPIPE") ∧
    Print (New (logged stringsBuilder) true) ("", []) "hello, " [Bold] =
      some (("\x1b[1mhello, \x1b[0m", ["\x1b[1mhello, \x1b[0m"]), none) := by
  refine ⟨Print_logged w tty st log msg styles, Print_logged w tty st log (msg ++ "\n") styles,
    ?_, by decide, by decide⟩
  rw [Printf_eq]
  exact Print_logged w tty st log _ _

/-- C12, as the code behaves: for a handle whose `Stat` fails, with no file
info, `isTerminal` panics on the call of `Mode()`, and so does `NewFromFile`:
no Printer is returned; for a handle of a character device the flag is on. -/
theorem NewFromFile_stat_error :
    isTerminal closedFile = none ∧
    (NewFromFile closedFile).isNone = true ∧
    (∀ f : File Unit String, f.Stat.1 = none → (NewFromFile f).isNone = true) ∧
    (NewFromFile ttyFile).map Printer.isTTY = some true := by
  refine ⟨rfl, rfl, ?_, by decide⟩
  intro f hf
  simp [NewFromFile, isTerminal, hf]

/-- C13: the codes of the built-in tokens: `0` for `Reset`, `1` for `Bold`,
`22` for `Default`, `30` to `37` for the foreground colours black to white,
`40` to `47` for the background colours in the same order, each ten more than
the foreground code; nineteen codes, pairwise distinct, each a non-empty string
of decimal digits. -/
theorem builtin_codes :
    Reset.code = "0" ∧ Bold.code = "1" ∧ Default.code = "22" ∧
    [ForegroundBlack, ForegroundRed, ForegroundGreen, ForegroundYellow, ForegroundBlue,
      ForegroundMagenta, ForegroundCyan, ForegroundWhite].map style.code =
      ["30", "31", "32", "33", "34", "35", "36", "37"] ∧
    [BackgroundBlack, BackgroundRed, BackgroundGreen, BackgroundYellow, BackgroundBlue,
      BackgroundMagenta, BackgroundCyan, BackgroundWhite].map style.code =
      ["40", "41", "42", "43", "44", "45", "46", "47"] ∧
    backgrounds.map (fun s => decimal s.code) = foregrounds.map (fun s => decimal s.code + 10) ∧
    builtins.length = 19 ∧
    (builtins.map style.code).Nodup ∧
    (∀ t ∈ builtins, isDigits t.code = true) := by
  refine ⟨rfl, rfl, rfl, by decide, by decide, by decide, by decide, by decide, by decide⟩

theorem exec_plain {V : Type} (Sprintf : String → List (Arg V) → String) (contents : String)
    (c : Call V) :
    c.exec Sprintf (New stringsBuilder false) contents =
      some (New stringsBuilder false, contents ++ plainText Sprintf c,
        (none : Option String)) := by
  cases c with
  | print msg styles => rfl
  | println msg styles => rfl
  | printf format argsAndStyles =>
    simp only [Call.exec, Printf_eq]
    rfl
  | styled s styles =>
    simp [Call.exec, Styled, New, plainText]

theorem runCalls_plain {V : Type} (Sprintf : String → List (Arg V) → String)
    (calls : List (Call V)) :
    ∀ contents : String,
      runCalls Sprintf (New stringsBuilder false) contents calls =
        some (New stringsBuilder false, contents ++ plainTexts Sprintf calls) := by
  induction calls with
  | nil => intro contents; simp [runCalls, plainTexts]
  | cons c cs ih =>
    intro contents
    simp only [runCalls, exec_plain, Option.bind_eq_bind, Option.some_bind, ih, plainTexts,
      String.append_assoc]

/-- C14: with the flag off a string builder accumulates plain text only: after
any sequence of calls of `Print`, `Println` and `Printf` (and of `Styled`, which
returns its text as it is) its contents are the contents before, followed in
the order of the calls by the message, the message and a newline, and the
format applied to the arguments that are not styles; `hello, ` in `Bold` then
`world!` in `ForegroundBlack` with `Println` leave `hello, world!` and a
newline. -/
theorem plain_sink {V : Type} (Sprintf : String → List (Arg V) → String)
    (calls : List (Call V)) (contents : String) :
    (runCalls Sprintf (New stringsBuilder false) contents calls).map Prod.snd =
      some (contents ++ plainTexts Sprintf calls) ∧
    (runCalls Sprintf (New stringsBuilder false) ""
      [Call.print "hello, " [Bold], Call.println "world!" [ForegroundBlack]]).map Prod.snd =
      some "hello, world!\n" ∧
    (∀ (S : String → List (Arg String) → String) (text : String) (styles : List style)
        (format : String),
      Styled (New stringsBuilder false) text styles = some text ∧
      (runCalls S (New stringsBuilder false) contents
        [Call.printf format [Arg.other text, Arg.ofStyle Bold]]).map Prod.snd =
        some (contents ++ S format [Arg.other text])) := by
  refine ⟨?_, ?_, ?_⟩
  · rw [runCalls_plain]
    rfl
  · rw [runCalls_plain]
    rfl
  · intro S text styles format
    refine ⟨rfl, ?_⟩
    rw [runCalls_plain]
    simp [plainTexts, plainText, valuesOf, Arg.isStyle]

theorem Printer_Print_frame {σ ε : Type} (p : Printer σ ε) (st : σ) (msg : String)
    (styles : List style) :
    ∃ (st2 : σ) (err : Option ε), Printer.Print p st msg styles = some (p, st2, err) := by
  obtain ⟨out, hout⟩ := ApplyStyles_total msg styles
  cases p with
  | mk w tty =>
    cases tty with
    | false => exact ⟨_, _, rfl⟩
    | true =>
      refine ⟨(Fprint w st out).1, (Fprint w st out).2.2, ?_⟩
      simp [Printer.Print, hout]

theorem Printer_Styled_frame {σ ε : Type} (p : Printer σ ε) (st : σ) (s : String)
    (styles : List style) :
    ∃ out : String, Printer.Styled p st s styles = some (p, st, out) := by
  obtain ⟨out, hout⟩ := ApplyStyles_total s styles
  cases p with
  | mk w tty =>
    cases tty with
    | false => exact ⟨s, rfl⟩
    | true => exact ⟨out, by simp [Printer.Styled, hout]⟩

theorem Printer_Print_eq {σ ε : Type} (p : Printer σ ε) (st : σ) (msg : String)
    (styles : List style) :
    (Printer.Print p st msg styles).map (fun r => r.2) = Print p st msg styles := by
  cases p with
  | mk w tty =>
    cases tty with
    | false => rfl
    | true =>
      cases h : ApplyStyles msg styles with
      | none => simp [Printer.Print, Print, h]
      | some out => simp [Printer.Print, Print, h]

theorem Printer_Styled_eq {σ ε : Type} (p : Printer σ ε) (st : σ) (s : String)
    (styles : List style) :
    (Printer.Styled p st s styles).map (fun r => r.2.2) = Styled p s styles := by
  cases p with
  | mk w tty =>
    cases tty with
    | false => rfl
    | true =>
      cases h : ApplyStyles s styles with
      | none => simp [Printer.Styled, Styled, h]
      | some out => simp [Printer.Styled, Styled, h]

theorem step_frame {σ ε V : Type} (Sprintf : String → List (Arg V) → String)
    (p : Printer σ ε) (st : σ) (c : Call V) :
    ∃ st2 : σ, Call.step Sprintf p st c = some (p, st2) := by
  cases c with
  | print msg styles =>
    obtain ⟨st2, err, h⟩ := Printer_Print_frame p st msg styles
    exact ⟨st2, by simp [Call.step, h]⟩
  | println msg styles =>
    obtain ⟨st2, err, h⟩ := Printer_Print_frame p st (msg ++ "\n") styles
    exact ⟨st2, by simp [Call.step, Printer.Println, h]⟩
  | printf format argsAndStyles =>
    obtain ⟨st2, err, h⟩ := Printer_Print_frame p st
      (Sprintf format (splitArgs argsAndStyles).1) (splitArgs argsAndStyles).2
    exact ⟨st2, by simp [Call.step, Printer.Printf, h]⟩
  | styled s styles =>
    obtain ⟨out, h⟩ := Printer_Styled_frame p st s styles
    exact ⟨st, by simp [Call.step, h]⟩

theorem runSteps_frame {σ ε V : Type} (Sprintf : String → List (Arg V) → String)
    (p : Printer σ ε) (calls : List (Call V)) :
    ∀ st : σ, ∃ st2 : σ, runSteps Sprintf p st calls = some (p, st2) := by
  induction calls with
  | nil => intro st; exact ⟨st, rfl⟩
  | cons c cs ih =>
    intro st
    obtain ⟨st1, h1⟩ := step_frame Sprintf p st c
    obtain ⟨st2, h2⟩ := ih st1
    exact ⟨st2, by simp [runSteps, h1, h2]⟩

/-- C15: a Printer made by `New` from a sink and a flag has that flag and that
sink. With the object behind the receiver as part of the state of every
method, each call of `Print`, `Println`, `Printf` and `Styled` returns and
leaves that object as it was, flag and sink reference alike, whatever error the
call returns (`Styled` leaves the sink alone too); so after every sequence of
calls on `New w flag` the flag is `flag` and the sink reference is `w`. The
methods so modelled write and return what `Print` and `Styled` do, and a
`Print` on a failing sink returns the error and leaves the Printer as it
was. -/
theorem Printer_frame {σ ε V : Type} (Sprintf : String → List (Arg V) → String)
    (w : Writer σ ε) (flag : Bool) :
    (New w flag).isTTY = flag ∧ (New w flag).w = w ∧
    (∀ (p : Printer σ ε) (st : σ) (msg : String) (styles : List style),
      (∃ (st2 : σ) (err : Option ε), Printer.Print p st msg styles = some (p, st2, err)) ∧
      (∃ (st2 : σ) (err : Option ε), Printer.Println p st msg styles = some (p, st2, err)) ∧
      (∃ out : String, Printer.Styled p st msg styles = some (p, st, out)) ∧
      (Printer.Print p st msg styles).map (fun r => r.2) = Print p st msg styles ∧
      (Printer.Println p st msg styles).map (fun r => r.2) = Println p st msg styles ∧
      (Printer.Styled p st msg styles).map (fun r => r.2.2) = Styled p msg styles) ∧
    (∀ (p : Printer σ ε) (st : σ) (format : String) (argsAndStyles : List (Arg V)),
      (∃ (st2 : σ) (err : Option ε),
        Printer.Printf Sprintf p st format argsAndStyles = some (p, st2, err)) ∧
      (Printer.Printf Sprintf p st format argsAndStyles).map (fun r => r.2) =
        Printf Sprintf p st format argsAndStyles) ∧
    (∀ (st : σ) (calls : List (Call V)), ∃ (q : Printer σ ε) (st2 : σ),
      runSteps Sprintf (New w flag) st calls = some (q, st2) ∧ q.isTTY = flag ∧ q.w = w) ∧
    Printer.Print (New (failing "EPIPE") true) () "hello, " [Bold] =
      some (New (failing "EPIPE") true, (), some "EPIPE") := by
  refine ⟨rfl, rfl, ?_, ?_, ?_, ?_⟩
  · intro p st msg styles
    exact ⟨Printer_Print_frame p st msg styles, Printer_Print_frame p st (msg ++ "\n") styles,
      Printer_Styled_frame p st msg styles, Printer_Print_eq p st msg styles,
      Printer_Print_eq p st (msg ++ "\n") styles, Printer_Styled_eq p st msg styles⟩
  · intro p st format argsAndStyles
    exact ⟨Printer_Print_frame p st _ _, Printer_Print_eq p st _ _⟩
  · intro st calls
    obtain ⟨st2, h⟩ := runSteps_frame Sprintf (New w flag) calls st
    exact ⟨New w flag, st2, h, rfl, rfl⟩
  · have h : ApplyStyles "hello, " [Bold] = some "\x1b[1mhello, \x1b[0m" := by decide
    simp [Printer.Print, New, h, Fprint, failing]

/-- C16: `join` chains: for two non-empty token lists the join of their
concatenation is the join of the first, `;`, and the join of the second; and
for every list, empty or not, appending or prepending the empty list changes
nothing. -/
theorem join_append (a b : List style) :
    (a ≠ [] → b ≠ [] →
      ∃ ja jb : String, join a = some ja ∧ join b = some jb ∧
        join (a ++ b) = some (ja ++ ";" ++ jb)) ∧
    join (a ++ []) = join a ∧ join ([] ++ a) = join a := by
  refine ⟨?_, by rw [List.append_nil], rfl⟩
  intro ha hb
  cases a with
  | nil => exact absurd rfl ha
  | cons a0 at1 =>
    cases b with
    | nil => exact absurd rfl hb
    | cons b0 bt =>
      refine ⟨_, _, join_cons a0 at1, join_cons b0 bt, ?_⟩
      rw [List.cons_append, join_cons, List.foldl_append, List.foldl_cons, pushCode_eq,
        foldl_pushCode_append]

/-- Witness of C16: `Bold`, `ForegroundRed` followed by `BackgroundBlue`, and
the empty list on either side of the empty list. -/
theorem join_append_witness :
    [Bold, ForegroundRed] ≠ [] ∧ [BackgroundBlue] ≠ [] ∧
    (∃ ja jb : String, join [Bold, ForegroundRed] = some ja ∧ join [BackgroundBlue] = some jb ∧
      join ([Bold, ForegroundRed] ++ [BackgroundBlue]) = some (ja ++ ";" ++ jb)) ∧
    join (([] : List style) ++ []) = join [] :=
  ⟨by decide, by decide,
    (join_append [Bold, ForegroundRed] [BackgroundBlue]).1 (by decide) (by decide),
    (join_append [] []).2.1⟩

theorem pushCode_data (b : String) (s : style) :
    (pushCode b s).data = b.data ++ separator :: s.code.data := by
  simp [pushCode, String.data_append]

theorem separator_not_mem (l : List Char) (h : l.all Char.isDigit = true) : separator ∉ l := by
  intro hmem
  have hd := List.all_eq_true.mp h separator hmem
  exact absurd hd (by decide)

theorem chain_of_not_mem (l : List Char) (h : separator ∉ l) :
    l.Chain' (fun x y => ¬(x = separator ∧ y = separator)) := by
  induction l with
  | nil => exact List.chain'_nil
  | cons x l ih =>
    refine List.Chain'.cons' (ih (fun hm => h (List.mem_cons_of_mem x hm))) ?_
    intro y _ hxy
    exact h (hxy.1 ▸ List.mem_cons_self x l)

theorem isDigits_iff (s : String) :
    isDigits s = true ↔ s.data ≠ [] ∧ s.data.all Char.isDigit = true := by
  cases hs : s.data with
  | nil => simp [isDigits, hs]
  | cons c l => simp [isDigits, hs]

theorem separated_digits (l : List Char) (hne : l ≠ []) (hd : l.all Char.isDigit = true) :
    separated l 0 := by
  have hall := List.all_eq_true.mp hd
  refine ⟨?_, ?_, ?_, chain_of_not_mem l (separator_not_mem l hd)⟩
  · cases l with
    | nil => exact absurd rfl hne
    | cons c l => exact ⟨c, rfl, hall c (List.mem_cons_self c l)⟩
  · exact ⟨l.getLast hne, List.getLast?_eq_getLast l hne, hall _ (List.getLast_mem hne)⟩
  · exact List.count_eq_zero.mpr (separator_not_mem l hd)

theorem separated_push (b code : List Char) (n : Nat) (hb : separated b n) (hne : code ≠ [])
    (hd : code.all Char.isDigit = true) : separated (b ++ separator :: code) (n + 1) := by
  obtain ⟨⟨c0, hc0, hc0d⟩, ⟨c1, hc1, hc1d⟩, hcount, hchain⟩ := hb
  have hall := List.all_eq_true.mp hd
  have hnot := separator_not_mem code hd
  have hbne : b ≠ [] := by
    intro hnil
    rw [hnil] at hc0
    exact absurd hc0 (by simp)
  refine ⟨?_, ?_, ?_, ?_⟩
  · exact ⟨c0, by rw [List.head?_append_of_ne_nil b hbne]; exact hc0, hc0d⟩
  · refine ⟨code.getLast hne, ?_, hall _ (List.getLast_mem hne)⟩
    rw [List.getLast?_append_of_ne_nil b (List.cons_ne_nil separator code)]
    cases code with
    | nil => exact absurd rfl hne
    | cons c l =>
      rw [List.getLast?_cons_cons]
      exact List.getLast?_eq_getLast _ _
  · rw [List.count_append, List.count_cons_self, hcount, List.count_eq_zero.mpr hnot]
  · refine List.Chain'.append hchain ?_ ?_
    · refine List.Chain'.cons' (chain_of_not_mem code hnot) ?_
      intro y hy hxy
      have hymem : y ∈ code := List.mem_of_mem_head? hy
      exact hnot (hxy.2 ▸ hymem)
    · intro x hx y _ hxy
      have hx1 : x = c1 := by
        rw [hc1] at hx
        exact (Option.mem_some_iff.mp hx).symm
      rw [hx1] at hxy
      rw [hxy.1] at hc1d
      exact absurd hc1d (by decide)

theorem separated_foldl (tl : List style) (hd : ∀ t ∈ tl, isDigits t.code = true) :
    ∀ (b : String) (n : Nat), separated b.data n →
      separated (tl.foldl pushCode b).data (n + tl.length) := by
  induction tl with
  | nil => intro b n hb; exact hb
  | cons t tl ih =>
    intro b n hb
    have ht := (isDigits_iff t.code).mp (hd t (List.mem_cons_self t tl))
    have hstep : separated (pushCode b t).data (n + 1) := by
      rw [pushCode_data]
      exact separated_push b.data t.code.data n hb ht.1 ht.2
    have h := ih (fun u hu => hd u (List.mem_cons_of_mem t hu)) (pushCode b t) (n + 1) hstep
    rw [List.foldl_cons, List.length_cons]
    rw [show n + (tl.length + 1) = n + 1 + tl.length by omega]
    exact h

theorem builtins_digits : ∀ t ∈ builtins, isDigits t.code = true := by
  decide

/-- C17: for a non-empty list of built-in tokens the result of `join` has no
leading and no trailing separator: it begins with a decimal digit, ends with a
decimal digit, nowhere holds two `;` in a row, and holds `;` exactly
`len(tokens) - 1` times. -/
theorem join_separators (tokens : List style) (hne : tokens ≠ [])
    (hb : ∀ t ∈ tokens, t ∈ builtins) :
    ∃ j : String, join tokens = some j ∧
      (∃ c : Char, j.data.head? = some c ∧ c.isDigit = true) ∧
      (∃ c : Char, j.data.getLast? = some c ∧ c.isDigit = true) ∧
      ¬ ([';', ';'] <:+: j.data) ∧
      j.data.count ';' = tokens.length - 1 := by
  cases tokens with
  | nil => exact absurd rfl hne
  | cons s0 tl =>
    have h0 := (isDigits_iff s0.code).mp (builtins_digits s0 (hb s0 (List.mem_cons_self s0 tl)))
    have hsep := separated_foldl tl
      (fun t ht => builtins_digits t (hb t (List.mem_cons_of_mem s0 ht))) s0.code 0
      (separated_digits s0.code.data h0.1 h0.2)
    obtain ⟨hhead, hlast, hcount, hchain⟩ := hsep
    refine ⟨_, join_cons s0 tl, hhead, hlast, ?_, ?_⟩
    · intro hin
      have h2 := List.Chain'.infix hchain hin
      exact (List.chain'_pair.mp h2) ⟨rfl, rfl⟩
    · rw [show separator = ';' from rfl] at hcount
      rw [hcount]
      simp

/-- Witness of C17: `Bold`, `ForegroundRed`, `BackgroundBlue`, joined to
`1;31;44`. -/
theorem join_separators_witness :
    [Bold, ForegroundRed, BackgroundBlue] ≠ [] ∧
    (∀ t ∈ [Bold, ForegroundRed, BackgroundBlue], t ∈ builtins) ∧
    join [Bold, ForegroundRed, BackgroundBlue] = some "1;31;44" ∧
    ∃ j : String, join [Bold, ForegroundRed, BackgroundBlue] = some j ∧
      (∃ c : Char, j.data.head? = some c ∧ c.isDigit = true) ∧
      (∃ c : Char, j.data.getLast? = some c ∧ c.isDigit = true) ∧
      ¬ ([';', ';'] <:+: j.data) ∧
      j.data.count ';' = [Bold, ForegroundRed, BackgroundBlue].length - 1 :=
  ⟨by decide, by decide, by decide,
    join_separators [Bold, ForegroundRed, BackgroundBlue] (by decide) (by decide)⟩

/-- C18: `Print` and `Styled` agree on every Printer: the string `Styled`
returns for a message and styles is the string `Print` hands to the sink, in
its one call of `Write`, for the same message and styles, with the flag on or
off. -/
theorem Print_eq_Styled {σ ε : Type} (p : Printer σ ε) (st : σ) (log : List String)
    (msg : String) (styles : List style) :
    ∃ out : String, Styled p msg styles = some out ∧
      Print p st msg styles = some ((p.w.Write st out).1, (p.w.Write st out).2.2) ∧
      (Print (New (logged p.w) p.isTTY) (st, log) msg styles).map (fun r => r.1.2) =
        some (log ++ [out]) := by
  obtain ⟨out, hout⟩ := ApplyStyles_total msg styles
  cases p with
  | mk w tty =>
    cases tty with
    | false => exact ⟨msg, rfl, rfl, rfl⟩
    | true =>
      refine ⟨out, by simpa [Styled] using hout, Print_tty w st msg out styles hout, ?_⟩
      show (Print (New (logged w) true) (st, log) msg styles).map (fun r => r.1.2) = _
      rw [Print_tty (logged w) (st, log) msg out styles hout]
      rfl

/-- C19: `join` never indexes out of range and always returns: for a non-empty
list `styles[0]` and `styles[1:]` are in range, the loop runs over
`len(styles) - 1` indices, and at each index `i` of the loop `i + 1` is below
`len(styles)`, so `styles[i+1]` is in range and the pass returns; for the empty
list, where `styles[0]` would be out of range, `join` returns before it. -/
theorem join_in_bounds (styles : List style) :
    (∃ j : String, join styles = some j) ∧
    (styles ≠ [] → ∃ (s0 : style) (tail : List style),
      index styles 0 = some s0 ∧ sliceFrom styles 1 = some tail ∧
      (List.range tail.length).length = styles.length - 1 ∧
      ∀ i ∈ List.range tail.length, i + 1 < styles.length ∧
        ∃ s : style, index styles (i + 1) = some s ∧
          ∀ b : String, joinStep styles b i = some (pushCode b s)) ∧
    index ([] : List style) 0 = none ∧ join [] = some "" := by
  refine ⟨⟨_, join_eq_joinSpec styles⟩, ?_, rfl, rfl⟩
  intro hne
  cases styles with
  | nil => exact absurd rfl hne
  | cons s0 tl =>
    refine ⟨s0, tl, by simp [index], by simp [sliceFrom], by simp, ?_⟩
    intro i hi
    have hlt : i < tl.length := List.mem_range.mp hi
    refine ⟨by simpa using hlt, tl.get ⟨i, hlt⟩, index_cons_succ s0 tl i hlt, ?_⟩
    intro b
    exact joinStep_cons s0 tl b i hlt

/-- Witness of C19: the three tokens `Bold`, `ForegroundRed`,
`BackgroundBlue`. -/
theorem join_in_bounds_witness :
    [Bold, ForegroundRed, BackgroundBlue] ≠ [] ∧
    ∃ (s0 : style) (tail : List style),
      index [Bold, ForegroundRed, BackgroundBlue] 0 = some s0 ∧
      sliceFrom [Bold, ForegroundRed, BackgroundBlue] 1 = some tail ∧
      (List.range tail.length).length = [Bold, ForegroundRed, BackgroundBlue].length - 1 ∧
      ∀ i ∈ List.range tail.length, i + 1 < [Bold, ForegroundRed, BackgroundBlue].length ∧
        ∃ s : style, index [Bold, ForegroundRed, BackgroundBlue] (i + 1) = some s ∧
          ∀ b : String, joinStep [Bold, ForegroundRed, BackgroundBlue] b i = some (pushCode b s) :=
  ⟨by decide, (join_in_bounds [Bold, ForegroundRed, BackgroundBlue]).2.1 (by decide)⟩

end Termcolor
